import Mathlib

/-!
Verification development for the quantara-waitlist repository.

The definitions below are a shallow embedding of the referral-attribution
backend: the data model of src/db/schema.ts, the signup handler of
src/api/waitlist.ts, the verification handler of src/api/verify-email.ts and
the leaderboard query of src/api/leaderboard.ts.  JavaScript string
primitives (toLowerCase, trim, slice, split, replace) are translated to
structurally recursive operations on the character list of a string, so that
every definition is executable and kernel-evaluable.  The database is a pure
state value; the SQL statements of the handlers become deterministic
functions on that state, with uniqueness violations decided against the
unique indexes declared in the schema (lower(email), referral_code and the
(referrer_id, referee_id, kind) triple).  External effects are parameters:
the Turnstile outcome is a boolean, the values drawn from Math.random are an
oracle of strings, and jwt.sign is an injective record constructor.
-/

/-! ## JavaScript string primitives -/

/-- Model of JavaScript String.prototype.toLowerCase restricted to basic
latin letters, matching Lean Char.toLower on every character. -/
def jsToLower (s : String) : String := ⟨s.data.map Char.toLower⟩

/-- Model of JavaScript String.prototype.toUpperCase restricted to basic
latin letters. -/
def jsUpper (s : String) : String := ⟨s.data.map Char.toUpper⟩

/-- Model of JavaScript String.prototype.trim: strip whitespace from both
ends of the string. -/
def jsTrim (s : String) : String :=
  ⟨((s.data.dropWhile Char.isWhitespace).reverse.dropWhile Char.isWhitespace).reverse⟩

/-- Model of s.slice(a, b) for a ≤ b: the characters from index a up to
(excluding) index b. -/
def jsSlice (s : String) (a b : Nat) : String := ⟨(s.data.drop a).take (b - a)⟩

/-- Model of email.split("@")[0]: the characters before the first at sign,
the whole string when no at sign occurs. -/
def localPart (s : String) : String := ⟨s.data.takeWhile (fun c => c != '@')⟩

/-- Model of str.replace(regex of not alphanumerics, ""): keep only the
ASCII alphanumeric characters. -/
def alnumOnly (s : String) : String := ⟨s.data.filter Char.isAlphanum⟩

/-- waitlist.ts line 147: data.email.toLowerCase().trim(). -/
def normEmail (s : String) : String := jsTrim (jsToLower s)

/-! ## Data model (src/db/schema.ts) -/

/-- referral_kind enum of the schema. -/
inductive RefKind
  | CLICK
  | SIGNUP
  | VERIFIED
deriving DecidableEq, Repr

/-- The jsonb utm blob: five optional string fields.  A missing key is
represented as none, so jsonb_strip_nulls is the identity on this
representation. -/
structure Utm where
  source : Option String
  medium : Option String
  campaign : Option String
  content : Option String
  term : Option String
deriving DecidableEq, Repr

/-- One row of user_account. -/
structure UserAccount where
  id : Nat
  email : String
  role : Option String
  experience : Option String
  discord : Option String
  github : Option String
  country : Option String
  referralCode : Option String
  referredBy : Option Nat
  emailVerified : Bool
  turnstileOk : Bool
  utm : Utm
  createdAt : Nat
deriving DecidableEq, Repr

/-- One row of referral_event. -/
structure ReferralEvent where
  referrerId : Nat
  refereeId : Nat
  kind : RefKind
  createdAt : Nat
deriving DecidableEq, Repr

/-- The durable store: the two tables the attribution engine touches, plus
the next value of the bigserial id sequence. -/
structure Db where
  accounts : List UserAccount
  events : List ReferralEvent
  nextId : Nat
deriving DecidableEq, Repr

/-- The empty database. -/
def Db.empty : Db := ⟨[], [], 1⟩

/-- Membership test for the unique index on (referrer_id, referee_id, kind):
true when the ledger already holds the triple. -/
def tripleIn (r f : Nat) (k : RefKind) (evs : List ReferralEvent) : Bool :=
  evs.any (fun e => e.referrerId == r && e.refereeId == f && e.kind == k)

/-! ## Referral code minting (src/api/waitlist.ts, makeReferralCode) -/

/-- waitlist.ts lines 89 to 93.  The second argument is the string produced
by Math.random().toString(36) for this draw; the seed is the local part of
the email with non alphanumerics removed, cut to 6 characters, uppercased,
and the suffix is slice(2, 6) of the random string, uppercased. -/
def makeReferralCode (email rnd : String) : String :=
  let seed := jsUpper ⟨(alnumOnly (localPart email)).data.take 6⟩
  let rand := jsUpper (jsSlice rnd 2 6)
  seed ++ rand

/-- From the words of the spec (section 4.1): a stable prefix derived from
the local part of the email, alphanumeric-only, first 6 characters,
uppercased. -/
def mintSeedSpec (email : String) : String :=
  ⟨(((email.data.takeWhile (fun c => c != '@')).filter Char.isAlphanum).take 6).map
    Char.toUpper⟩

theorem makeReferralCode_seed (email rnd : String) :
    makeReferralCode email rnd = mintSeedSpec email ++ jsUpper (jsSlice rnd 2 6) := rfl

/-! ## Signup request data and environment (src/api/waitlist.ts) -/

/-- The validated body of a join request (JoinSchema), after the turnstile
token has been collected from its accepted field names into one field. -/
structure JoinData where
  email : String
  role : String
  experience : Option String
  discord : Option String
  github : Option String
  country : Option String
  referral : Option String
  referralAuto : Option String
  utmSource : Option String
  utmMedium : Option String
  utmCampaign : Option String
  utmContent : Option String
  utmTerm : Option String
  token : String
deriving DecidableEq, Repr

/-- The process environment consulted by the handler. -/
structure Env where
  nodeEnv : String
  turnstileSecret : String
deriving DecidableEq, Repr

/-- waitlist.ts lines 69 to 86.  The ext argument is the outcome of the
Cloudflare siteverify call (response ok and success field true), consulted
only when neither the dev bypass nor the missing-secret guard decides. -/
def verifyTurnstile (env : Env) (token : String) (ext : Bool) : Bool :=
  if env.nodeEnv != "production" && token == "TEST_BYPASS" then true
  else if env.turnstileSecret == "" then false
  else ext

/-- JavaScript x?.trim() as a truthy value: none when x is absent or trims
to the empty string. -/
def truthyTrim : Option String → Option String
  | none => none
  | some s => let t := jsTrim s; if t == "" then none else some t

/-- waitlist.ts line 148: data.referral?.trim() || data.referral_auto?.trim()
|| null. -/
def refCodeIn (ref refAuto : Option String) : Option String :=
  match truthyTrim ref with
  | some t => some t
  | none => truthyTrim refAuto

/-- The utm jsonb payload built from the request, nulls stripped. -/
def utmOf (d : JoinData) : Utm :=
  ⟨d.utmSource, d.utmMedium, d.utmCampaign, d.utmContent, d.utmTerm⟩

/-- Key-wise jsonb override: the right value wins when present. -/
def ovKey (nw old : Option String) : Option String :=
  match nw with
  | some v => some v
  | none => old

/-- waitlist.ts line 182: jsonb_strip_nulls(user_account.utm || new payload);
the new payload was already stripped of nulls, so a key of the merge holds
the new value when supplied and the old value otherwise. -/
def mergeUtm (old nw : Utm) : Utm :=
  ⟨ovKey nw.source old.source, ovKey nw.medium old.medium, ovKey nw.campaign old.campaign,
    ovKey nw.content old.content, ovKey nw.term old.term⟩

/-- The SET clause of the update path (waitlist.ts lines 175 to 185): role
is always replaced, the optional profile fields are replaced by the supplied
value or null, and utm is merged. -/
def applyUpdate (d : JoinData) (a : UserAccount) : UserAccount :=
  { a with
    role := some d.role
    experience := d.experience
    discord := d.discord
    github := d.github
    country := d.country
    utm := mergeUtm a.utm (utmOf d) }

/-- UPDATE ... WHERE id = uid over the account table. -/
def setAccount (accts : List UserAccount) (uid : Nat) (f : UserAccount → UserAccount) :
    List UserAccount :=
  accts.map (fun a => if a.id == uid then f a else a)

/-- Uniqueness violation oracle for the referral_code index when updating
the row of uid: some other row already holds the candidate. -/
def codeTakenByOther (accts : List UserAccount) (uid : Nat) (c : String) : Bool :=
  accts.any (fun a => a.id != uid && a.referralCode == some c)

/-- Uniqueness violation oracle for the referral_code index on insert. -/
def codeTaken (accts : List UserAccount) (c : String) : Bool :=
  accts.any (fun a => a.referralCode == some c)

/-- The backfill loop of the update path (waitlist.ts lines 193 to 211):
up to 3 attempts; a uniqueness violation regenerates, a stored candidate
ends the loop when it is truthy (a stored empty candidate leaves rc falsy
and the loop continues).  Returns the accounts after the executed updates
and the final rc value, the empty string when no truthy code was stored. -/
def backfillLoop (uid : Nat) (email : String) (rand : Nat → String) :
    Nat → Nat → List UserAccount → List UserAccount × String
  | 0, _, accts => (accts, "")
  | fuel + 1, i, accts =>
    let c := makeReferralCode email (rand i)
    if codeTakenByOther accts uid c then backfillLoop uid email rand fuel (i + 1) accts
    else
      let accts2 := setAccount accts uid (fun a => { a with referralCode := some c })
      if c == "" then backfillLoop uid email rand fuel (i + 1) accts2
      else (accts2, c)

/-- The insert loop of the insert path (waitlist.ts lines 216 to 237): up to
3 attempts, regenerating the candidate on a referral_code uniqueness
violation; none when all attempts collided. -/
def insertCodeLoop (accts : List UserAccount) (email : String) (rand : Nat → String) :
    Nat → Nat → Option String
  | 0, _ => none
  | fuel + 1, i =>
    let c := makeReferralCode email (rand i)
    if codeTaken accts c then insertCodeLoop accts email rand fuel (i + 1)
    else some c

/-- The user value the handler builds and returns. -/
structure UserRow where
  id : Nat
  email : String
  referralCode : String
deriving DecidableEq, Repr

/-- The row inserted by the insert path of the upsert (waitlist.ts lines
219 to 228): the supplied profile fields, the minted code, the stripped utm
payload, and the schema defaults for the remaining columns. -/
def newAccount (d : JoinData) (email c : String) (now uid : Nat) : UserAccount :=
  { id := uid, email := email, role := some d.role, experience := d.experience,
    discord := d.discord, github := d.github, country := d.country,
    referralCode := some c, referredBy := none, emailVerified := false,
    turnstileOk := false, utm := utmOf d, createdAt := now }

/-- The upsert of the handler (waitlist.ts lines 160 to 240): look up by
lowercased email; on the update path merge fields and ensure a referral
code (with the unstored fallback after an exhausted backfill loop); on the
insert path insert with a minted code, none (the thrown error) when all
three attempts collided. -/
def upsertUser (d : JoinData) (rand : Nat → String) (now : Nat) (db : Db) (email : String) :
    Option (Db × UserRow) :=
  match db.accounts.find? (fun a => jsToLower a.email == email) with
  | some existing =>
    let accounts1 := setAccount db.accounts existing.id (applyUpdate d)
    let current := applyUpdate d existing
    let rc0 := current.referralCode.getD ""
    if rc0 == "" then
      match backfillLoop existing.id email rand 3 0 accounts1 with
      | (accounts2, rc) =>
        if rc == "" then
          some ({ db with accounts := accounts2 },
            ⟨existing.id, existing.email, makeReferralCode email (rand 3)⟩)
        else some ({ db with accounts := accounts2 }, ⟨existing.id, existing.email, rc⟩)
    else some ({ db with accounts := accounts1 }, ⟨existing.id, existing.email, rc0⟩)
  | none =>
    match insertCodeLoop db.accounts email rand 3 0 with
    | some c =>
      let accountsI := db.accounts ++ [newAccount d email c now db.nextId]
      some ({ db with accounts := accountsI, nextId := db.nextId + 1 }, ⟨db.nextId, email, c⟩)
    | none => none

/-- waitlist.ts lines 243 to 254: INSERT INTO referral_event SELECT u1.id,
u2.id, SIGNUP joining u1 by referral_code and u2 by lowercased email, with
the self guard u1.id <> u2.id, ON CONFLICT DO NOTHING against the triple
index. -/
def logReferral (code : Option String) (email : String) (now : Nat) (db : Db) : Db :=
  match code with
  | none => db
  | some c =>
    match db.accounts.find? (fun a => a.referralCode == some c),
        db.accounts.find? (fun a => jsToLower a.email == email) with
    | some u1, some u2 =>
      if u1.id != u2.id && !(tripleIn u1.id u2.id .SIGNUP db.events) then
        { db with events := db.events ++ [⟨u1.id, u2.id, .SIGNUP, now⟩] }
      else db
    | _, _ => db

/-- Model of the payload passed to jwt.sign (waitlist.ts lines 257 to 261);
signing itself is an external capability, so the credential is the payload
record. -/
structure Jwt where
  sub : Nat
  email : String
  typ : String
deriving DecidableEq, Repr

/-- The 200 body of the signup handler. -/
structure SignupOk where
  code : String
  userEmail : String
  userCode : String
  verifyToken : Jwt
deriving DecidableEq, Repr

/-- The responses of the signup handler that the embedding distinguishes. -/
inductive SignupResp
  | humanFailed
  | internalError
  | ok (r : SignupOk)
deriving DecidableEq, Repr

/-- The signup handler (waitlist.ts lines 101 to 274) from the point where
the body has passed validation: human check, upsert, referral logging,
token issuance. -/
def waitlistHandler (d : JoinData) (env : Env) (ext : Bool) (rand : Nat → String) (now : Nat)
    (db : Db) : Db × SignupResp :=
  if verifyTurnstile env d.token ext then
    let email := normEmail d.email
    match upsertUser d rand now db email with
    | none => (db, .internalError)
    | some (db1, user) =>
      let db2 := logReferral (refCodeIn d.referral d.referralAuto) email now db1
      (db2, .ok ⟨user.referralCode, user.email, user.referralCode,
        ⟨user.id, user.email, "email-verify"⟩⟩)
  else (db, .humanFailed)

/-! ## Email verification handler (src/api/verify-email.ts) -/

/-- The responses of the verify handler that the embedding distinguishes
(the json body and the redirect carry the same verified and awarded
flags). -/
inductive VerifyResp
  | notFound
  | done (verified : Bool) (awarded : Bool)
deriving DecidableEq, Repr

/-- Keep the later of the accumulator and the next matching event, by
creation time; on equal times the event seen later wins. -/
def pickLater (acc : Option ReferralEvent) (e : ReferralEvent) : Option ReferralEvent :=
  match acc with
  | none => some e
  | some a => if a.createdAt ≤ e.createdAt then some e else some a

/-- Scan of the ledger for SELECT referrer_id ... WHERE referee_id = uid AND
kind = SIGNUP ORDER BY created_at DESC LIMIT 1. -/
def mostRecentSignupAux (uid : Nat) :
    List ReferralEvent → Option ReferralEvent → Option ReferralEvent
  | [], acc => acc
  | e :: rest, acc =>
    mostRecentSignupAux uid rest
      (if e.refereeId == uid && e.kind == RefKind.SIGNUP then pickLater acc e else acc)

/-- The most recent SIGNUP event crediting uid as referee. -/
def mostRecentSignup (evs : List ReferralEvent) (uid : Nat) : Option ReferralEvent :=
  mostRecentSignupAux uid evs none

/-- UPDATE user_account SET email_verified = true, executed only when the
flag is not yet set (verify-email.ts lines 115 to 118). -/
def markVerified (user : UserAccount) (db : Db) : Db :=
  if user.emailVerified then db
  else
    let accountsV := setAccount db.accounts user.id (fun a => { a with emailVerified := true })
    { db with accounts := accountsV }

/-- The verify-email handler (verify-email.ts lines 98 to 158) from the
point where the credential has resolved to userId: fetch the account, set
the verified flag idempotently, find the most recent SIGNUP referral, insert
the VERIFIED event with ON CONFLICT DO NOTHING, and report awarded as the
truthiness of the found referrer id. -/
def verifyEmailHandler (userId : Nat) (now : Nat) (db : Db) : Db × VerifyResp :=
  match db.accounts.find? (fun a => a.id == userId) with
  | none => (db, .notFound)
  | some user =>
    let db1 := markVerified user db
    match mostRecentSignup db1.events user.id with
    | some r =>
      if r.referrerId != 0 then
        let db2 :=
          if tripleIn r.referrerId user.id .VERIFIED db1.events then db1
          else { db1 with events := db1.events ++ [⟨r.referrerId, user.id, .VERIFIED, now⟩] }
        (db2, .done true true)
      else (db1, .done true false)
    | none => (db1, .done true false)

/-! ## Leaderboard query (src/api/leaderboard.ts) -/

/-- One row of the leaderboard result set.  The created time of the account
is carried because ORDER BY u.created_at reads it even though the SELECT
list does not return it. -/
structure LbRow where
  referralCode : String
  name : String
  signups : Nat
  verified : Nat
  points : Int
  createdAt : Nat
deriving DecidableEq, Repr

/-- COUNT(*) FILTER over the LEFT JOIN group of one account: the events
joined on referrer_id = uid, filtered to the kind and the window. -/
def lbCount (evs : List ReferralEvent) (uid : Nat) (k : RefKind) (ws : Nat) : Nat :=
  (evs.filter (fun e => e.referrerId == uid)).countP
    (fun e => e.kind == k && decide (ws ≤ e.createdAt))

/-- The SELECT list of the leaderboard query (leaderboard.ts lines 75 to
83): code, masked name left(email, 3) with three asterisks, the two window
counts and the weighted points. -/
def lbRowOf (evs : List ReferralEvent) (ws : Nat) (wS wV : Int) (a : UserAccount) : LbRow :=
  let s := lbCount evs a.id .SIGNUP ws
  let v := lbCount evs a.id .VERIFIED ws
  { referralCode := a.referralCode.getD ""
    name := (⟨a.email.data.take 3⟩ : String) ++ "***"
    signups := s
    verified := v
    points := (s : Int) * wS + (v : Int) * wV
    createdAt := a.createdAt }

/-- ORDER BY points DESC, verified DESC, signups DESC, u.created_at ASC as a
binary relation on rows. -/
def rowLe (x y : LbRow) : Prop :=
  y.points < x.points ∨
    (x.points = y.points ∧
      (y.verified < x.verified ∨
        (x.verified = y.verified ∧
          (y.signups < x.signups ∨
            (x.signups = y.signups ∧ x.createdAt ≤ y.createdAt)))))

instance rowLe.decRel : DecidableRel rowLe := fun x y => by
  unfold rowLe; infer_instance

instance rowLe.isTotal : IsTotal LbRow rowLe :=
  ⟨by intro a b; unfold rowLe; omega⟩

instance rowLe.isTrans : IsTrans LbRow rowLe :=
  ⟨by intro a b c; unfold rowLe; omega⟩

/-- The WHERE, GROUP BY and HAVING stages of the query: one row per account
with a non-null referral code, kept when its points reach the minimum. -/
def lbFiltered (db : Db) (ws : Nat) (wS wV : Int) (minPts : Int) : List LbRow :=
  ((db.accounts.filter (fun a => a.referralCode.isSome)).map
    (lbRowOf db.events ws wS wV)).filter (fun r => decide (minPts ≤ r.points))

/-- The full leaderboard result (leaderboard.ts lines 74 to 94): the
filtered rows, ordered, cut to the limit.  The window start ws is the value
of the window expression (epoch zero for all, the current week or month
truncation otherwise). -/
def leaderboardRows (db : Db) (ws : Nat) (wS wV : Int) (limit : Nat) (minPts : Int) :
    List LbRow :=
  (List.insertionSort rowLe (lbFiltered db ws wS wV minPts)).take limit

/-! ## Character-level helper lemmas -/

theorem toLower_toLower (c : Char) : c.toLower.toLower = c.toLower := by
  by_cases h : c.toNat ≥ 65 ∧ c.toNat ≤ 90
  · have h1 : c.toLower = Char.ofNat (c.toNat + 32) := by
      show (if c.toNat ≥ 65 ∧ c.toNat ≤ 90 then Char.ofNat (c.toNat + 32) else c) = _
      exact if_pos h
    rw [h1]
    obtain ⟨hl, hr⟩ := h
    generalize hn : c.toNat = n
    rw [hn] at hl hr
    interval_cases n <;> decide
  · have h1 : c.toLower = c := by
      show (if c.toNat ≥ 65 ∧ c.toNat ≤ 90 then Char.ofNat (c.toNat + 32) else c) = _
      exact if_neg h
    rw [h1]
    exact h1

theorem isAlphanum_toUpper (c : Char) (h : c.isAlphanum = true) :
    c.toUpper.isAlphanum = true := by
  by_cases hc : c.toNat ≥ 97 ∧ c.toNat ≤ 122
  · have h1 : c.toUpper = Char.ofNat (c.toNat - 32) := by
      show (if c.toNat ≥ 97 ∧ c.toNat ≤ 122 then Char.ofNat (c.toNat - 32) else c) = _
      exact if_pos hc
    rw [h1]
    obtain ⟨hl, hr⟩ := hc
    generalize hn : c.toNat = n
    rw [hn] at hl hr
    interval_cases n <;> decide
  · have h1 : c.toUpper = c := by
      show (if c.toNat ≥ 97 ∧ c.toNat ≤ 122 then Char.ofNat (c.toNat - 32) else c) = _
      exact if_neg hc
    rw [h1]
    exact h

/-! ## String-level helper lemmas -/

theorem mem_of_mem_jsTrim {c : Char} {s : String} (h : c ∈ (jsTrim s).data) : c ∈ s.data := by
  unfold jsTrim at h
  rw [List.mem_reverse] at h
  have h1 : c ∈ (s.data.dropWhile Char.isWhitespace).reverse :=
    (List.dropWhile_sublist _).subset h
  rw [List.mem_reverse] at h1
  exact (List.dropWhile_sublist _).subset h1

theorem jsToLower_fix {t : String} (h : ∀ c ∈ t.data, c.toLower = c) : jsToLower t = t := by
  cases t with
  | mk l =>
    unfold jsToLower
    have : l.map Char.toLower = l := by
      have h2 : l.map Char.toLower = l.map id := List.map_congr_left h
      rw [h2, List.map_id]
    simpa using congrArg String.mk this

theorem mem_jsToLower_fix {s : String} (c : Char) (hc : c ∈ (jsToLower s).data) :
    c.toLower = c := by
  unfold jsToLower at hc
  simp only [List.mem_map] at hc
  obtain ⟨y, _, rfl⟩ := hc
  exact toLower_toLower y

theorem jsToLower_normEmail (s : String) : jsToLower (normEmail s) = normEmail s :=
  jsToLower_fix (fun c hc => mem_jsToLower_fix c (mem_of_mem_jsTrim hc))

/-! ## Ledger predicate helpers -/

/-- The multiplicity of one (referrer, referee, kind) triple in the ledger. -/
def countTriple (r f : Nat) (k : RefKind) (evs : List ReferralEvent) : Nat :=
  evs.countP (fun e => e.referrerId == r && e.refereeId == f && e.kind == k)

theorem tripleIn_iff {r f : Nat} {k : RefKind} {evs : List ReferralEvent} :
    tripleIn r f k evs = true ↔
      ∃ e ∈ evs, e.referrerId = r ∧ e.refereeId = f ∧ e.kind = k := by
  unfold tripleIn
  simp [List.any_eq_true, and_assoc]

theorem tripleIn_false {r f : Nat} {k : RefKind} {evs : List ReferralEvent}
    (h : tripleIn r f k evs = false) :
    ∀ e ∈ evs, ¬(e.referrerId = r ∧ e.refereeId = f ∧ e.kind = k) := by
  intro e he hcon
  have : tripleIn r f k evs = true := tripleIn_iff.mpr ⟨e, he, hcon⟩
  rw [h] at this
  exact Bool.false_ne_true this

theorem countTriple_append (r f : Nat) (k : RefKind) (l1 l2 : List ReferralEvent) :
    countTriple r f k (l1 ++ l2) = countTriple r f k l1 + countTriple r f k l2 :=
  List.countP_append _ _ _

theorem countTriple_single_miss {r f : Nat} {k : RefKind} {e : ReferralEvent}
    (h : ¬(e.referrerId = r ∧ e.refereeId = f ∧ e.kind = k)) :
    countTriple r f k [e] = 0 := by
  unfold countTriple
  have hb : (e.referrerId == r && e.refereeId == f && e.kind == k) = false := by
    by_contra hb
    rw [Bool.not_eq_false] at hb
    simp only [Bool.and_eq_true, beq_iff_eq] at hb
    exact h ⟨hb.1.1, hb.1.2, hb.2⟩
  simp [List.countP_cons, hb]

/-! ## Structural lemmas about the signup handler -/

theorem logReferral_accounts (code : Option String) (email : String) (now : Nat) (db : Db) :
    (logReferral code email now db).accounts = db.accounts := by
  unfold logReferral
  split
  · rfl
  · split
    · split <;> rfl
    · rfl

theorem logReferral_nextId (code : Option String) (email : String) (now : Nat) (db : Db) :
    (logReferral code email now db).nextId = db.nextId := by
  unfold logReferral
  split
  · rfl
  · split
    · split <;> rfl
    · rfl

theorem logReferral_events (code : Option String) (email : String) (now : Nat) (db : Db) :
    (logReferral code email now db).events = db.events ∨
      ∃ c u1 u2, code = some c ∧
        db.accounts.find? (fun a => a.referralCode == some c) = some u1 ∧
        db.accounts.find? (fun a => jsToLower a.email == email) = some u2 ∧
        u1.id ≠ u2.id ∧ tripleIn u1.id u2.id .SIGNUP db.events = false ∧
        (logReferral code email now db).events =
          db.events ++ [⟨u1.id, u2.id, .SIGNUP, now⟩] := by
  unfold logReferral
  split
  · exact Or.inl rfl
  · rename_i c
    split
    · rename_i u1 u2 h1 h2
      split
      · rename_i hguard
        simp only [Bool.and_eq_true, bne_iff_ne, Bool.not_eq_true'] at hguard
        exact Or.inr ⟨c, u1, u2, rfl, h1, h2, hguard.1, hguard.2, rfl⟩
      · exact Or.inl rfl
    · exact Or.inl rfl

theorem upsertUser_events {d : JoinData} {rand : Nat → String} {now : Nat} {db : Db}
    {email : String} {db1 : Db} {u : UserRow}
    (h : upsertUser d rand now db email = some (db1, u)) : db1.events = db.events := by
  unfold upsertUser at h
  split at h
  · dsimp only at h
    split at h
    · split at h
      · simp only [Option.some.injEq, Prod.mk.injEq] at h
        rw [← h.1]
      · simp only [Option.some.injEq, Prod.mk.injEq] at h
        rw [← h.1]
    · simp only [Option.some.injEq, Prod.mk.injEq] at h
      rw [← h.1]
  · split at h
    · simp only [Option.some.injEq, Prod.mk.injEq] at h
      rw [← h.1]
    · exact absurd h (by simp)

theorem mem_setAccount_self {accts : List UserAccount} {b : UserAccount} {uid : Nat}
    (f : UserAccount → UserAccount) (hb : b ∈ accts) (hid : b.id = uid) :
    f b ∈ setAccount accts uid f := by
  have h1 : (if b.id == uid then f b else b) ∈ setAccount accts uid f :=
    List.mem_map_of_mem _ hb
  rwa [if_pos (beq_iff_eq.mpr hid)] at h1

theorem backfillLoop_mem (uid : Nat) (email : String) (rand : Nat → String) :
    ∀ (fuel i : Nat) (accts : List UserAccount) (b : UserAccount),
      b ∈ accts → b.id = uid →
      ∃ rc2 : Option String,
        ({ b with referralCode := rc2 } : UserAccount) ∈
          (backfillLoop uid email rand fuel i accts).1 := by
  intro fuel
  induction fuel with
  | zero =>
    intro i accts b hb _
    exact ⟨b.referralCode, hb⟩
  | succ n ih =>
    intro i accts b hb hid
    unfold backfillLoop
    dsimp only
    split
    · exact ih (i + 1) accts b hb hid
    · split
      · have hmem2 := mem_setAccount_self
          (fun a => { a with referralCode := some (makeReferralCode email (rand i)) }) hb hid
        obtain ⟨rc2, hmem3⟩ := ih (i + 1) _ _ hmem2 hid
        exact ⟨rc2, hmem3⟩
      · exact ⟨some (makeReferralCode email (rand i)), mem_setAccount_self _ hb hid⟩

theorem backfillLoop_all_collide (uid : Nat) (email : String) (rand : Nat → String) :
    ∀ (fuel i : Nat) (accts : List UserAccount),
      (∀ j, j < fuel →
        codeTakenByOther accts uid (makeReferralCode email (rand (i + j))) = true) →
      backfillLoop uid email rand fuel i accts = (accts, "") := by
  intro fuel
  induction fuel with
  | zero => intro i accts _; rfl
  | succ n ih =>
    intro i accts hcol
    unfold backfillLoop
    dsimp only
    rw [if_pos]
    · exact ih (i + 1) accts (fun j hj => by
        have h2 := hcol (j + 1) (by omega)
        rwa [show i + (j + 1) = i + 1 + j by omega] at h2)
    · have h2 := hcol 0 (by omega)
      rwa [Nat.add_zero] at h2

theorem insertCodeLoop_all_collide (accts : List UserAccount) (email : String)
    (rand : Nat → String) :
    ∀ (fuel i : Nat),
      (∀ j, j < fuel → codeTaken accts (makeReferralCode email (rand (i + j))) = true) →
      insertCodeLoop accts email rand fuel i = none := by
  intro fuel
  induction fuel with
  | zero => intro i _; rfl
  | succ n ih =>
    intro i hcol
    unfold insertCodeLoop
    dsimp only
    rw [if_pos]
    · exact ih (i + 1) (fun j hj => by
        have h2 := hcol (j + 1) (by omega)
        rwa [show i + (j + 1) = i + 1 + j by omega] at h2)
    · have h2 := hcol 0 (by omega)
      rwa [Nat.add_zero] at h2

theorem mostRecentSignupAux_spec (uid : Nat) :
    ∀ (l : List ReferralEvent) (acc : Option ReferralEvent) (e : ReferralEvent),
      mostRecentSignupAux uid l acc = some e →
      acc = some e ∨ (e ∈ l ∧ e.refereeId = uid ∧ e.kind = .SIGNUP) := by
  intro l
  induction l with
  | nil => intro acc e h; exact Or.inl h
  | cons x rest ih =>
    intro acc e h
    unfold mostRecentSignupAux at h
    rcases ih _ e h with hacc | ⟨hmem, h1, h2⟩
    · by_cases hp : (x.refereeId == uid && x.kind == RefKind.SIGNUP) = true
      · rw [if_pos hp] at hacc
        simp only [Bool.and_eq_true, beq_iff_eq] at hp
        cases acc with
        | none =>
          have hxe : some x = some e := hacc
          obtain rfl : x = e := by injection hxe
          exact Or.inr ⟨List.mem_cons_self x rest, hp.1, hp.2⟩
        | some a =>
          have hacc2 : (if a.createdAt ≤ x.createdAt then some x else some a) = some e := hacc
          split at hacc2
          · obtain rfl : x = e := by injection hacc2
            exact Or.inr ⟨List.mem_cons_self x rest, hp.1, hp.2⟩
          · exact Or.inl hacc2
      · rw [if_neg hp] at hacc
        exact Or.inl hacc
    · exact Or.inr ⟨List.mem_cons_of_mem x hmem, h1, h2⟩

theorem mostRecentSignup_spec {evs : List ReferralEvent} {uid : Nat} {e : ReferralEvent}
    (h : mostRecentSignup evs uid = some e) :
    e ∈ evs ∧ e.refereeId = uid ∧ e.kind = .SIGNUP := by
  rcases mostRecentSignupAux_spec uid evs none e h with hacc | hgood
  · exact absurd hacc (by simp)
  · exact hgood

theorem tripleIn_append (r f : Nat) (k : RefKind) (l1 l2 : List ReferralEvent) :
    tripleIn r f k (l1 ++ l2) = (tripleIn r f k l1 || tripleIn r f k l2) :=
  List.any_append

theorem countTriple_eq_zero {r f : Nat} {k : RefKind} {evs : List ReferralEvent}
    (h : tripleIn r f k evs = false) : countTriple r f k evs = 0 := by
  unfold countTriple
  rw [List.countP_eq_zero]
  intro e he hp
  simp only [Bool.and_eq_true, beq_iff_eq] at hp
  exact tripleIn_false h e he ⟨hp.1.1, hp.1.2, hp.2⟩

theorem countTriple_single_hit (r f : Nat) (k : RefKind) (now : Nat) :
    countTriple r f k [⟨r, f, k, now⟩] = 1 := by
  unfold countTriple
  simp [List.countP_cons]

theorem upsertUser_user_mem {d : JoinData} {rand : Nat → String} {now : Nat} {db : Db}
    {email : String} {db1 : Db} {u : UserRow}
    (h : upsertUser d rand now db email = some (db1, u)) :
    ∃ a ∈ db1.accounts, a.id = u.id ∧ a.email = u.email := by
  unfold upsertUser at h
  split at h
  · rename_i existing hfind
    have hex : existing ∈ db.accounts := List.mem_of_find?_eq_some hfind
    have hupd : applyUpdate d existing ∈ setAccount db.accounts existing.id (applyUpdate d) :=
      mem_setAccount_self (applyUpdate d) hex rfl
    dsimp only at h
    split at h
    · split at h
      · simp only [Option.some.injEq, Prod.mk.injEq] at h
        obtain ⟨hdb, hu⟩ := h
        subst hdb
        subst hu
        obtain ⟨rc2, hmem⟩ :=
          backfillLoop_mem existing.id email rand 3 0 _ (applyUpdate d existing) hupd rfl
        exact ⟨_, hmem, rfl, rfl⟩
      · simp only [Option.some.injEq, Prod.mk.injEq] at h
        obtain ⟨hdb, hu⟩ := h
        subst hdb
        subst hu
        obtain ⟨rc2, hmem⟩ :=
          backfillLoop_mem existing.id email rand 3 0 _ (applyUpdate d existing) hupd rfl
        exact ⟨_, hmem, rfl, rfl⟩
    · simp only [Option.some.injEq, Prod.mk.injEq] at h
      obtain ⟨hdb, hu⟩ := h
      subst hdb
      subst hu
      exact ⟨_, hupd, rfl, rfl⟩
  · split at h
    · simp only [Option.some.injEq, Prod.mk.injEq] at h
      obtain ⟨hdb, hu⟩ := h
      subst hdb
      subst hu
      refine ⟨_, List.mem_append.mpr (Or.inr (List.mem_singleton.mpr rfl)), rfl, rfl⟩
    · exact absurd h (by simp)


/-! ## Event-shape lemmas for the two mutating handlers -/

theorem markVerified_events (user : UserAccount) (db : Db) :
    (markVerified user db).events = db.events := by
  unfold markVerified
  split <;> rfl

theorem markVerified_nextId (user : UserAccount) (db : Db) :
    (markVerified user db).nextId = db.nextId := by
  unfold markVerified
  split <;> rfl

theorem waitlistHandler_events_shape (d : JoinData) (env : Env) (ext : Bool)
    (rand : Nat → String) (now : Nat) (db : Db) :
    (waitlistHandler d env ext rand now db).1.events = db.events ∨
      ∃ r f, r ≠ f ∧ tripleIn r f .SIGNUP db.events = false ∧
        (waitlistHandler d env ext rand now db).1.events =
          db.events ++ [⟨r, f, .SIGNUP, now⟩] := by
  unfold waitlistHandler
  split
  · dsimp only
    cases hup : upsertUser d rand now db (normEmail d.email) with
    | none => simp [hup]
    | some p =>
      obtain ⟨db1, user⟩ := p
      have hev : db1.events = db.events := upsertUser_events hup
      simp only [hup]
      rcases logReferral_events (refCodeIn d.referral d.referralAuto) (normEmail d.email)
          now db1 with hsame | ⟨c, u1, u2, _, _, _, hne, htrip, happ⟩
      · exact Or.inl (by rw [hsame, hev])
      · rw [hev] at htrip
        exact Or.inr ⟨u1.id, u2.id, hne, htrip, by rw [happ, hev]⟩
  · exact Or.inl rfl

theorem verifyEmailHandler_events_shape (uid now : Nat) (db : Db) :
    (verifyEmailHandler uid now db).1.events = db.events ∨
      ∃ r, tripleIn r uid .VERIFIED db.events = false ∧
        (∃ s ∈ db.events, s.kind = .SIGNUP ∧ s.refereeId = uid ∧ s.referrerId = r) ∧
        (verifyEmailHandler uid now db).1.events = db.events ++ [⟨r, uid, .VERIFIED, now⟩] := by
  unfold verifyEmailHandler
  split
  · exact Or.inl rfl
  · rename_i user hfind
    have hp := List.find?_some hfind
    simp only [beq_iff_eq] at hp
    dsimp only
    have hev1 := markVerified_events user db
    cases hms : mostRecentSignup (markVerified user db).events user.id with
    | none => simp only [hms]; exact Or.inl hev1
    | some r =>
      obtain ⟨hmem, hfe, hk⟩ := mostRecentSignup_spec hms
      rw [hev1] at hmem
      simp only [hms]
      split
      · dsimp only
        split
        · exact Or.inl hev1
        · rename_i htrip
          rw [Bool.not_eq_true] at htrip
          rw [hev1] at htrip
          refine Or.inr ⟨r.referrerId, ?_, ⟨r, hmem, hk, by rw [hfe, hp], rfl⟩, ?_⟩
          · rw [← hp]; exact htrip
          · dsimp only; rw [hev1, hp]
      · exact Or.inl hev1

/-! ## Reachable states and the ledger invariant -/

/-- The states reachable from the empty store by runs of the two mutating
handlers, with arbitrary requests, environments, external outcomes, random
draws and timestamps. -/
inductive Reachable : Db → Prop
  | init : Reachable Db.empty
  | signup (d : JoinData) (env : Env) (ext : Bool) (rand : Nat → String) (now : Nat)
      {db : Db} : Reachable db → Reachable (waitlistHandler d env ext rand now db).1
  | verify (uid now : Nat) {db : Db} :
      Reachable db → Reachable (verifyEmailHandler uid now db).1

/-- The ledger invariant of the spec: no self edge, and no two events share
the (referrer, referee, kind) triple. -/
def EvOk (db : Db) : Prop :=
  (∀ e ∈ db.events, e.referrerId ≠ e.refereeId) ∧
    db.events.Pairwise
      (fun e1 e2 =>
        ¬(e1.referrerId = e2.referrerId ∧ e1.refereeId = e2.refereeId ∧ e1.kind = e2.kind))

theorem evOk_append (e : ReferralEvent) {db db2 : Db} (h : EvOk db)
    (hfresh : tripleIn e.referrerId e.refereeId e.kind db.events = false)
    (hne : e.referrerId ≠ e.refereeId)
    (happ : db2.events = db.events ++ [e]) : EvOk db2 := by
  obtain ⟨h1, h2⟩ := h
  constructor
  · intro x hx
    rw [happ] at hx
    rcases List.mem_append.mp hx with hx1 | hx2
    · exact h1 x hx1
    · rw [List.mem_singleton.mp hx2]
      exact hne
  · rw [happ]
    rw [List.pairwise_append]
    refine ⟨h2, List.pairwise_singleton _ _, ?_⟩
    intro x hx y hy
    rw [List.mem_singleton.mp hy]
    intro hcon
    exact tripleIn_false hfresh x hx ⟨hcon.1, hcon.2.1, hcon.2.2⟩

/-- Every reachable store satisfies the ledger invariant. -/
theorem reachable_evOk : ∀ db : Db, Reachable db → EvOk db := by
  intro db h
  induction h with
  | init =>
    constructor
    · intro e he
      exact absurd he (by simp [Db.empty])
    · exact List.Pairwise.nil
  | signup d env ext rand now hdb ih =>
    rename_i db0
    rcases waitlistHandler_events_shape d env ext rand now db0 with hsame |
      ⟨r, f, hne, hfresh, happ⟩
    · exact ⟨fun e he => ih.1 e (hsame ▸ he), hsame ▸ ih.2⟩
    · exact evOk_append ⟨r, f, .SIGNUP, now⟩ ih hfresh hne happ
  | verify uid now hdb ih =>
    rename_i db0
    rcases verifyEmailHandler_events_shape uid now db0 with hsame |
      ⟨r, hfresh, ⟨s, hs, hsk, hsf, hsr⟩, happ⟩
    · exact ⟨fun e he => ih.1 e (hsame ▸ he), hsame ▸ ih.2⟩
    · have hne : r ≠ uid := by
        have h3 := ih.1 s hs
        rw [hsr, hsf] at h3
        exact h3
      exact evOk_append ⟨r, uid, .VERIFIED, now⟩ ih hfresh hne happ

/-- One signup call never removes ledger rows and never duplicates a triple
that is already present: the multiplicity of a present triple is unchanged
and it stays present. -/
theorem waitlistHandler_preserves_triple {r f : Nat} (d : JoinData) (env : Env) (ext : Bool)
    (rand : Nat → String) (now : Nat) (db : Db)
    (hin : tripleIn r f .SIGNUP db.events = true) :
    countTriple r f .SIGNUP (waitlistHandler d env ext rand now db).1.events =
      countTriple r f .SIGNUP db.events ∧
    tripleIn r f .SIGNUP (waitlistHandler d env ext rand now db).1.events = true := by
  rcases waitlistHandler_events_shape d env ext rand now db with hsame |
    ⟨r2, f2, hne, hfresh, happ⟩
  · rw [hsame]
    exact ⟨rfl, hin⟩
  · rw [happ, countTriple_append, tripleIn_append, hin, Bool.true_or]
    refine ⟨?_, rfl⟩
    have hmiss : countTriple r f RefKind.SIGNUP [⟨r2, f2, .SIGNUP, now⟩] = 0 := by
      apply countTriple_single_miss
      intro hcon
      obtain ⟨hc1, hc2, _⟩ := hcon
      dsimp only at hc1 hc2
      rw [hc1, hc2] at hfresh
      rw [hin] at hfresh
      exact Bool.noConfusion hfresh
    rw [hmiss]
    omega

/-- One call of the signup handler, bundled for iteration. -/
structure SignupCall where
  d : JoinData
  env : Env
  ext : Bool
  rand : Nat → String
  now : Nat

/-- Run a list of signup calls left to right. -/
def applySignups : List SignupCall → Db → Db
  | [], db => db
  | c :: rest, db => applySignups rest (waitlistHandler c.d c.env c.ext c.rand c.now db).1

theorem applySignups_preserves_triple {r f : Nat} :
    ∀ (calls : List SignupCall) (db : Db),
      tripleIn r f .SIGNUP db.events = true →
      countTriple r f .SIGNUP (applySignups calls db).events =
        countTriple r f .SIGNUP db.events ∧
      tripleIn r f .SIGNUP (applySignups calls db).events = true := by
  intro calls
  induction calls with
  | nil => intro db hin; exact ⟨rfl, hin⟩
  | cons c rest ih =>
    intro db hin
    obtain ⟨hc, ht⟩ := waitlistHandler_preserves_triple c.d c.env c.ext c.rand c.now db hin
    obtain ⟨hc2, ht2⟩ := ih _ ht
    exact ⟨by rw [applySignups, hc2, hc], by rw [applySignups]; exact ht2⟩

/-! ## The first crediting signup (scenario of the exactly-once property) -/

theorem insertCodeLoop_succ (accts : List UserAccount) (email : String) (rand : Nat → String)
    (fuel i : Nat) :
    insertCodeLoop accts email rand (fuel + 1) i =
      if codeTaken accts (makeReferralCode email (rand i)) then
        insertCodeLoop accts email rand fuel (i + 1)
      else some (makeReferralCode email (rand i)) := rfl

theorem upsertUser_insert_first {d : JoinData} {rand : Nat → String} {now : Nat} {db : Db}
    {email : String}
    (hfind : db.accounts.find? (fun a => jsToLower a.email == email) = none)
    (hfresh0 : codeTaken db.accounts (makeReferralCode email (rand 0)) = false) :
    upsertUser d rand now db email =
      some (⟨db.accounts ++ [newAccount d email (makeReferralCode email (rand 0)) now db.nextId],
          db.events, db.nextId + 1⟩,
        ⟨db.nextId, email, makeReferralCode email (rand 0)⟩) := by
  have hloop : insertCodeLoop db.accounts email rand 3 0 =
      some (makeReferralCode email (rand 0)) := by
    have h3 : insertCodeLoop db.accounts email rand 3 0 =
        if codeTaken db.accounts (makeReferralCode email (rand 0)) then
          insertCodeLoop db.accounts email rand 2 1
        else some (makeReferralCode email (rand 0)) := insertCodeLoop_succ db.accounts email rand 2 0
    rw [h3, if_neg]
    rw [hfresh0]
    exact Bool.false_ne_true
  unfold upsertUser
  rw [hfind]
  dsimp only
  rw [hloop]

theorem waitlistHandler_first_referral (d : JoinData) (env : Env) (ext : Bool)
    (rand : Nat → String) (now : Nat) (db : Db) (R : UserAccount) (code : String)
    (hh : verifyTurnstile env d.token ext = true)
    (hfind : db.accounts.find? (fun a => jsToLower a.email == normEmail d.email) = none)
    (hfresh0 : codeTaken db.accounts (makeReferralCode (normEmail d.email) (rand 0)) = false)
    (href : refCodeIn d.referral d.referralAuto = some code)
    (hR : db.accounts.find? (fun a => a.referralCode == some code) = some R)
    (hRid : R.id ≠ db.nextId)
    (htrip : tripleIn R.id db.nextId .SIGNUP db.events = false) :
    (waitlistHandler d env ext rand now db).1.events =
      db.events ++ [⟨R.id, db.nextId, .SIGNUP, now⟩] := by
  unfold waitlistHandler
  split
  · dsimp only
    rw [upsertUser_insert_first hfind hfresh0]
    dsimp only
    rw [href]
    unfold logReferral
    dsimp only
    have hfc : (db.accounts ++
        [newAccount d (normEmail d.email) (makeReferralCode (normEmail d.email) (rand 0))
          now db.nextId]).find? (fun a => a.referralCode == some code) = some R := by
      rw [List.find?_append, hR, Option.or_some]
    have hpred : (jsToLower (newAccount d (normEmail d.email)
        (makeReferralCode (normEmail d.email) (rand 0)) now db.nextId).email ==
          normEmail d.email) = true := by
      show (jsToLower (normEmail d.email) == normEmail d.email) = true
      rw [jsToLower_normEmail]
      exact beq_self_eq_true _
    have hfe2 : (db.accounts ++
        [newAccount d (normEmail d.email) (makeReferralCode (normEmail d.email) (rand 0))
          now db.nextId]).find? (fun a => jsToLower a.email == normEmail d.email) =
        some (newAccount d (normEmail d.email)
          (makeReferralCode (normEmail d.email) (rand 0)) now db.nextId) := by
      rw [List.find?_append, hfind, Option.none_or]
      exact List.find?_cons_of_pos _ hpred
    rw [hfc, hfe2]
    dsimp only
    rw [if_pos]
    · rfl
    · rw [Bool.and_eq_true]
      constructor
      · rw [bne_iff_ne]
        exact hRid
      · rw [Bool.not_eq_true']
        exact htrip
  · rename_i hfalse
    exact absurd hh hfalse

/-! ## Claim-side leaderboard counting and masking -/

/-- The count the spec describes directly: events where the account is
referrer, of one kind, timestamped at or after the window start. -/
def countRefEvents (evs : List ReferralEvent) (uid : Nat) (k : RefKind) (ws : Nat) : Nat :=
  evs.countP (fun e => e.referrerId == uid && (e.kind == k && decide (ws ≤ e.createdAt)))

theorem lbCount_eq (evs : List ReferralEvent) (uid : Nat) (k : RefKind) (ws : Nat) :
    lbCount evs uid k ws = countRefEvents evs uid k ws := by
  unfold lbCount countRefEvents
  rw [List.countP_filter]
  apply List.countP_congr
  intro e _
  rw [Bool.and_comm]

/-- From the words of the spec (section 4.2): the first 3 characters of the
local part of the email followed by three asterisks. -/
def maskSpec (email : String) : String := (⟨(localPart email).data.take 3⟩ : String) ++ "***"

/-! ## Concrete fixtures used by counterexamples and witnesses -/

/-- The empty utm payload. -/
def utmNone : Utm := ⟨none, none, none, none, none⟩

/-- A referrer account holding code REFAAA. -/
def acctOne : UserAccount :=
  ⟨1, "ref@x.io", some "Builder", none, none, none, none, some "REFAAA", none,
    false, false, utmNone, 0⟩

/-- A referee account, unverified, holding code FRIAAA. -/
def acctTwo : UserAccount :=
  ⟨2, "fri@x.io", some "Builder", none, none, none, none, some "FRIAAA", none,
    false, false, utmNone, 1⟩

/-- A store where account 1 has already been credited a SIGNUP for
referring account 2. -/
def dbSigned : Db := ⟨[acctOne, acctTwo], [⟨1, 2, .SIGNUP, 1⟩], 3⟩

/-- An account that stores a discord handle. -/
def acctDisc : UserAccount :=
  ⟨1, "f@x.io", some "Builder", none, some "olddiscord", none, none, some "FAAAAA", none,
    false, false, utmNone, 0⟩

/-- A store holding only acctDisc. -/
def dbDisc : Db := ⟨[acctDisc], [], 2⟩

/-- A repeat-signup request for f@x.io that does not supply discord and
carries the dev bypass token. -/
def reqNoDiscord : JoinData :=
  ⟨"f@x.io", "Builder", none, none, none, none, none, none, none, none, none, none, none,
    "TEST_BYPASS"⟩

/-- A development environment with a configured secret. -/
def envDev : Env := ⟨"development", "secret"⟩

/-- A production environment with no secret configured. -/
def envProd : Env := ⟨"production", ""⟩

/-- A random oracle whose every draw reads 0.wxyz. -/
def randConst : Nat → String := fun _ => "0.wxyz"

/-- A random oracle drawing 0.aaaa, 0.bbbb, 0.cccc, 0.dddd in order. -/
def randSeq : Nat → String := fun i => ["0.aaaa", "0.bbbb", "0.cccc", "0.dddd"].getD i "0.eeee"

/-- An account with no referral code yet (backfill target). -/
def acctNoCode : UserAccount :=
  ⟨1, "f@x.io", some "Builder", none, none, none, none, none, none, false, false, utmNone, 0⟩

/-- Accounts already holding exactly the codes the oracle will mint. -/
def acctTakenA : UserAccount :=
  ⟨2, "a@x.io", some "Builder", none, none, none, none, some "FAAAA", none,
    false, false, utmNone, 0⟩

def acctTakenB : UserAccount :=
  ⟨3, "b@x.io", some "Builder", none, none, none, none, some "FBBBB", none,
    false, false, utmNone, 0⟩

def acctTakenC : UserAccount :=
  ⟨4, "c@x.io", some "Builder", none, none, none, none, some "FCCCC", none,
    false, false, utmNone, 0⟩

/-- A store where every backfill candidate for f@x.io collides. -/
def dbExhaust : Db := ⟨[acctNoCode, acctTakenA, acctTakenB, acctTakenC], [], 5⟩

/-- An account whose email local part has only two characters. -/
def acctShortLocal : UserAccount :=
  ⟨1, "ab@x.io", some "Builder", none, none, none, none, some "ABCODE", none,
    false, false, utmNone, 0⟩

/-- A store holding only acctShortLocal. -/
def dbShortLocal : Db := ⟨[acctShortLocal], [], 2⟩

/-- A signup request for f@x.io carrying an unknown referral code. -/
def reqUnknown : JoinData :=
  ⟨"f@x.io", "Builder", none, none, none, none, some "DOESNOTEXIST", none, none, none,
    none, none, none, "TEST_BYPASS"⟩

/-- A referrer account holding code RCODE1. -/
def acctR : UserAccount :=
  ⟨1, "r@x.io", some "Builder", none, none, none, none, some "RCODE1", none,
    false, false, utmNone, 0⟩

/-- A store holding only acctR. -/
def dbR : Db := ⟨[acctR], [], 2⟩

/-- A signup request for f@x.io carrying the code of acctR. -/
def reqRef : JoinData :=
  ⟨"f@x.io", "Builder", none, none, none, none, some "RCODE1", none, none, none,
    none, none, none, "TEST_BYPASS"⟩

/-! ## Update-path characterization (for claim C2) -/

theorem upsertUser_update_isSome {d : JoinData} {rand : Nat → String} {now : Nat} {db : Db}
    {email : String} {existing : UserAccount}
    (hfind : db.accounts.find? (fun a => jsToLower a.email == email) = some existing) :
    upsertUser d rand now db email ≠ none := by
  unfold upsertUser
  rw [hfind]
  dsimp only
  split
  · split <;> simp
  · simp

theorem upsertUser_update_row {d : JoinData} {rand : Nat → String} {now : Nat} {db : Db}
    {email : String} {db1 : Db} {u : UserRow} {existing : UserAccount}
    (hfind : db.accounts.find? (fun a => jsToLower a.email == email) = some existing)
    (h : upsertUser d rand now db email = some (db1, u)) :
    ∃ rc2 : Option String,
      ({ applyUpdate d existing with referralCode := rc2 } : UserAccount) ∈ db1.accounts := by
  have hex : existing ∈ db.accounts := List.mem_of_find?_eq_some hfind
  have hupd : applyUpdate d existing ∈ setAccount db.accounts existing.id (applyUpdate d) :=
    mem_setAccount_self (applyUpdate d) hex rfl
  unfold upsertUser at h
  rw [hfind] at h
  dsimp only at h
  split at h
  · split at h
    · simp only [Option.some.injEq, Prod.mk.injEq] at h
      obtain ⟨hdb, hu⟩ := h
      subst hdb
      exact backfillLoop_mem existing.id email rand 3 0 _ (applyUpdate d existing) hupd rfl
    · simp only [Option.some.injEq, Prod.mk.injEq] at h
      obtain ⟨hdb, hu⟩ := h
      subst hdb
      exact backfillLoop_mem existing.id email rand 3 0 _ (applyUpdate d existing) hupd rfl
  · simp only [Option.some.injEq, Prod.mk.injEq] at h
    obtain ⟨hdb, hu⟩ := h
    subst hdb
    exact ⟨(applyUpdate d existing).referralCode, hupd⟩

/-! ## Claim theorems -/

/-- Claim C1 (code_bug evidence): with a SIGNUP(1, 2) edge on record, the
first VerifyEmail call for account 2 appends one VERIFIED(1, 2) event and
reports awarded = true; the second call appends no duplicate row, yet also
reports awarded = true, because the handler computes awarded from the
existence of the SIGNUP referral rather than from the insert outcome.  The
claim and the spec say the second call must report awarded = false. -/
theorem verifyEmail_second_call_reports_awarded_true :
    ((verifyEmailHandler 2 5 dbSigned).2 = .done true true) ∧
    ((verifyEmailHandler 2 5 dbSigned).1.events = dbSigned.events ++ [⟨1, 2, .VERIFIED, 5⟩]) ∧
    ((verifyEmailHandler 2 7 (verifyEmailHandler 2 5 dbSigned).1).2 = .done true true) ∧
    ((verifyEmailHandler 2 7 (verifyEmailHandler 2 5 dbSigned).1).1.events =
      (verifyEmailHandler 2 5 dbSigned).1.events) := by
  refine ⟨by decide, by decide, by decide, by decide⟩

/-- Claim C2 (counterexample): a stored discord value is cleared, not kept,
when a repeat signup does not re-supply the field.  Before the call the only
account stores discord = olddiscord and the request supplies none; after the
call the stored value is null. -/
theorem signup_update_clears_unsupplied_discord :
    dbDisc.accounts.map UserAccount.discord = [some "olddiscord"] ∧
    reqNoDiscord.discord = none ∧
    (waitlistHandler reqNoDiscord envDev false randConst 5 dbDisc).1.accounts.map
      UserAccount.discord = [none] := by
  refine ⟨by decide, by decide, by decide⟩

/-- Claim C2 (amended): on a repeat signup the update path replaces role and
overwrites each optional profile field with the supplied value or null (a
field not re-supplied is cleared, not kept), while the attribution metadata
is merged key-wise: a key not re-supplied keeps its stored value and a
supplied key overwrites it. -/
theorem signup_update_field_semantics (d : JoinData) (env : Env) (ext : Bool)
    (rand : Nat → String) (now : Nat) (db : Db) (existing : UserAccount)
    (hh : verifyTurnstile env d.token ext = true)
    (hfind : db.accounts.find? (fun a => jsToLower a.email == normEmail d.email) =
      some existing) :
    ∃ a ∈ (waitlistHandler d env ext rand now db).1.accounts,
      a.id = existing.id ∧ a.email = existing.email ∧
      a.role = some d.role ∧ a.experience = d.experience ∧ a.discord = d.discord ∧
      a.github = d.github ∧ a.country = d.country ∧
      (d.utmSource = none → a.utm.source = existing.utm.source) ∧
      (∀ v, d.utmSource = some v → a.utm.source = some v) ∧
      (d.utmMedium = none → a.utm.medium = existing.utm.medium) ∧
      (∀ v, d.utmMedium = some v → a.utm.medium = some v) ∧
      (d.utmCampaign = none → a.utm.campaign = existing.utm.campaign) ∧
      (∀ v, d.utmCampaign = some v → a.utm.campaign = some v) ∧
      (d.utmContent = none → a.utm.content = existing.utm.content) ∧
      (∀ v, d.utmContent = some v → a.utm.content = some v) ∧
      (d.utmTerm = none → a.utm.term = existing.utm.term) ∧
      (∀ v, d.utmTerm = some v → a.utm.term = some v) := by
  unfold waitlistHandler
  split
  · dsimp only
    cases hup : upsertUser d rand now db (normEmail d.email) with
    | none => exact absurd hup (upsertUser_update_isSome hfind)
    | some p =>
      obtain ⟨db1, user⟩ := p
      obtain ⟨rc2, hmem⟩ := upsertUser_update_row hfind hup
      dsimp only
      rw [logReferral_accounts]
      refine ⟨_, hmem, rfl, rfl, rfl, rfl, rfl, rfl, rfl, ?_, ?_, ?_, ?_, ?_, ?_, ?_, ?_,
        ?_, ?_⟩
      · intro hs
        simp [applyUpdate, mergeUtm, ovKey, utmOf, hs]
      · intro v hs
        simp [applyUpdate, mergeUtm, ovKey, utmOf, hs]
      · intro hs
        simp [applyUpdate, mergeUtm, ovKey, utmOf, hs]
      · intro v hs
        simp [applyUpdate, mergeUtm, ovKey, utmOf, hs]
      · intro hs
        simp [applyUpdate, mergeUtm, ovKey, utmOf, hs]
      · intro v hs
        simp [applyUpdate, mergeUtm, ovKey, utmOf, hs]
      · intro hs
        simp [applyUpdate, mergeUtm, ovKey, utmOf, hs]
      · intro v hs
        simp [applyUpdate, mergeUtm, ovKey, utmOf, hs]
      · intro hs
        simp [applyUpdate, mergeUtm, ovKey, utmOf, hs]
      · intro v hs
        simp [applyUpdate, mergeUtm, ovKey, utmOf, hs]
  · rename_i hfalse
    exact absurd hh hfalse

/-- Claim C2 (witness): the amended statement applied to the concrete repeat
signup of the counterexample store. -/
theorem signup_update_field_semantics_witness :
    ∃ a ∈ (waitlistHandler reqNoDiscord envDev false randConst 5 dbDisc).1.accounts,
      a.id = acctDisc.id ∧ a.email = acctDisc.email ∧
      a.role = some reqNoDiscord.role ∧ a.experience = reqNoDiscord.experience ∧
      a.discord = reqNoDiscord.discord ∧ a.github = reqNoDiscord.github ∧
      a.country = reqNoDiscord.country ∧
      (reqNoDiscord.utmSource = none → a.utm.source = acctDisc.utm.source) ∧
      (∀ v, reqNoDiscord.utmSource = some v → a.utm.source = some v) ∧
      (reqNoDiscord.utmMedium = none → a.utm.medium = acctDisc.utm.medium) ∧
      (∀ v, reqNoDiscord.utmMedium = some v → a.utm.medium = some v) ∧
      (reqNoDiscord.utmCampaign = none → a.utm.campaign = acctDisc.utm.campaign) ∧
      (∀ v, reqNoDiscord.utmCampaign = some v → a.utm.campaign = some v) ∧
      (reqNoDiscord.utmContent = none → a.utm.content = acctDisc.utm.content) ∧
      (∀ v, reqNoDiscord.utmContent = some v → a.utm.content = some v) ∧
      (reqNoDiscord.utmTerm = none → a.utm.term = acctDisc.utm.term) ∧
      (∀ v, reqNoDiscord.utmTerm = some v → a.utm.term = some v) :=
  signup_update_field_semantics reqNoDiscord envDev false randConst 5 dbDisc acctDisc
    (by decide) (by decide)

/-! ## Exhausted minting (claim C3) -/

/-- A store with no f@x.io account where every insert candidate collides. -/
def dbInsExhaust : Db := ⟨[acctTakenA, acctTakenB, acctTakenC], [], 5⟩

theorem map_referralCode_setAccount (accts : List UserAccount) (uid : Nat) (d : JoinData) :
    (setAccount accts uid (applyUpdate d)).map UserAccount.referralCode =
      accts.map UserAccount.referralCode := by
  unfold setAccount
  rw [List.map_map]
  apply List.map_congr_left
  intro a _
  dsimp only [Function.comp]
  split
  · rfl
  · rfl

/-- Claim C3 (counterexample): with account 1 lacking a code and accounts
2, 3, 4 already holding the three candidates the oracle will draw, the
repeat signup for f@x.io exhausts the backfill loop and responds with code
FDDDD and status 200 ok, while no stored referral code changed: FDDDD was
never durably stored.  The claim says exhaustion must fail with an internal
error on this path too. -/
theorem mint_backfill_returns_unstored_code :
    ((waitlistHandler reqNoDiscord envDev false randSeq 9 dbExhaust).2 =
      .ok ⟨"FDDDD", "f@x.io", "FDDDD", ⟨1, "f@x.io", "email-verify"⟩⟩) ∧
    ((waitlistHandler reqNoDiscord envDev false randSeq 9 dbExhaust).1.accounts.map
      UserAccount.referralCode = [none, some "FAAAA", some "FBBBB", some "FCCCC"]) := by
  refine ⟨by decide, by decide⟩

/-- Claim C3 (amended): minting attempts are bounded by 3 on both paths; on
the new-account insert path exhaustion fails the request with a generic
internal error and leaves the store unchanged, while on the existing-account
backfill path exhaustion does not fail: the handler answers ok with a
fourth, freshly drawn code while every stored referral code is unchanged, so
the returned code was never durably stored. -/
theorem mint_exhaustion_paths :
    (∀ (d : JoinData) (env : Env) (ext : Bool) (rand : Nat → String) (now : Nat) (db : Db),
      verifyTurnstile env d.token ext = true →
      db.accounts.find? (fun a => jsToLower a.email == normEmail d.email) = none →
      (∀ i, i < 3 →
        codeTaken db.accounts (makeReferralCode (normEmail d.email) (rand i)) = true) →
      waitlistHandler d env ext rand now db = (db, .internalError)) ∧
    (∀ (d : JoinData) (env : Env) (ext : Bool) (rand : Nat → String) (now : Nat) (db : Db)
      (existing : UserAccount),
      verifyTurnstile env d.token ext = true →
      db.accounts.find? (fun a => jsToLower a.email == normEmail d.email) = some existing →
      existing.referralCode = none →
      (∀ i, i < 3 → codeTakenByOther (setAccount db.accounts existing.id (applyUpdate d))
        existing.id (makeReferralCode (normEmail d.email) (rand i)) = true) →
      ∃ r, (waitlistHandler d env ext rand now db).2 = .ok r ∧
        r.code = makeReferralCode (normEmail d.email) (rand 3) ∧
        (waitlistHandler d env ext rand now db).1.accounts.map UserAccount.referralCode =
          db.accounts.map UserAccount.referralCode) := by
  constructor
  · intro d env ext rand now db hh hfind hcol
    have hloop : insertCodeLoop db.accounts (normEmail d.email) rand 3 0 = none := by
      apply insertCodeLoop_all_collide
      intro j hj
      simpa using hcol j hj
    have hup : upsertUser d rand now db (normEmail d.email) = none := by
      unfold upsertUser
      rw [hfind]
      dsimp only
      rw [hloop]
    unfold waitlistHandler
    split
    · dsimp only
      rw [hup]
    · rename_i hfalse
      exact absurd hh hfalse
  · intro d env ext rand now db existing hh hfind hcode hcol
    have hrc0 : ((applyUpdate d existing).referralCode.getD "" == "") = true := by
      have h0 : (applyUpdate d existing).referralCode = existing.referralCode := rfl
      rw [h0, hcode]
      decide
    have hbf : backfillLoop existing.id (normEmail d.email) rand 3 0
        (setAccount db.accounts existing.id (applyUpdate d)) =
        (setAccount db.accounts existing.id (applyUpdate d), "") := by
      apply backfillLoop_all_collide
      intro j hj
      simpa using hcol j hj
    have hup : upsertUser d rand now db (normEmail d.email) =
        some (⟨setAccount db.accounts existing.id (applyUpdate d), db.events, db.nextId⟩,
          ⟨existing.id, existing.email, makeReferralCode (normEmail d.email) (rand 3)⟩) := by
      unfold upsertUser
      rw [hfind]
      dsimp only
      rw [if_pos hrc0, hbf]
      rfl
    unfold waitlistHandler
    split
    · dsimp only
      rw [hup]
      dsimp only
      refine ⟨_, rfl, rfl, ?_⟩
      rw [logReferral_accounts]
      exact map_referralCode_setAccount db.accounts existing.id d
    · rename_i hfalse
      exact absurd hh hfalse

/-- Claim C3 (witness): the amended statement applied to the two concrete
exhaustion stores, one per path. -/
theorem mint_exhaustion_paths_witness :
    (waitlistHandler reqNoDiscord envDev false randSeq 9 dbInsExhaust =
      (dbInsExhaust, .internalError)) ∧
    (∃ r, (waitlistHandler reqNoDiscord envDev false randSeq 9 dbExhaust).2 = .ok r ∧
      r.code = makeReferralCode (normEmail reqNoDiscord.email) (randSeq 3) ∧
      (waitlistHandler reqNoDiscord envDev false randSeq 9 dbExhaust).1.accounts.map
        UserAccount.referralCode = dbExhaust.accounts.map UserAccount.referralCode) :=
  ⟨mint_exhaustion_paths.1 reqNoDiscord envDev false randSeq 9 dbInsExhaust (by decide)
      (by decide) (by intro i hi; interval_cases i <;> decide),
    mint_exhaustion_paths.2 reqNoDiscord envDev false randSeq 9 dbExhaust acctNoCode
      (by decide) (by decide) (by decide) (by intro i hi; interval_cases i <;> decide)⟩

/-- The singleton ledger always contains its own triple. -/
theorem tripleIn_single (r f : Nat) (k : RefKind) (now : Nat) :
    tripleIn r f k [⟨r, f, k, now⟩] = true := by
  simp [tripleIn]

/-- Claim C4: a failed human check short-circuits the signup handler before
any store access, returning the store untouched with the human-check
failure; the TEST_BYPASS token is auto-accepted exactly when NODE_ENV is not
production, and in production it falls through to the real check (false on a
missing secret, the siteverify outcome otherwise). -/
theorem human_check_gates_mutation :
    (∀ (d : JoinData) (env : Env) (ext : Bool) (rand : Nat → String) (now : Nat) (db : Db),
      verifyTurnstile env d.token ext = false →
      waitlistHandler d env ext rand now db = (db, .humanFailed)) ∧
    (∀ (env : Env) (ext : Bool), env.nodeEnv ≠ "production" →
      verifyTurnstile env "TEST_BYPASS" ext = true) ∧
    (∀ (env : Env) (ext : Bool), env.nodeEnv = "production" →
      verifyTurnstile env "TEST_BYPASS" ext =
        if env.turnstileSecret = "" then false else ext) := by
  refine ⟨?_, ?_, ?_⟩
  · intro d env ext rand now db h
    unfold waitlistHandler
    rw [h]
    rfl
  · intro env ext hne
    unfold verifyTurnstile
    rw [if_pos]
    rw [Bool.and_eq_true, bne_iff_ne]
    exact ⟨hne, by decide⟩
  · intro env ext heq
    unfold verifyTurnstile
    rw [if_neg]
    · by_cases hs : env.turnstileSecret = ""
      · rw [if_pos hs, if_pos (beq_iff_eq.mpr hs)]
      · rw [if_neg hs, if_neg]
        rw [Bool.not_eq_true, beq_eq_false_iff_ne]
        exact hs
    · rw [Bool.and_eq_true, bne_iff_ne]
      intro hcon
      exact hcon.1 heq

/-- Claim C4 (witness): the gate applied to a production store with no
secret (check false, store untouched), the bypass accepted in development,
and the bypass ignored in production. -/
theorem human_check_gates_mutation_witness :
    (waitlistHandler reqNoDiscord envProd true randConst 0 dbDisc = (dbDisc, .humanFailed)) ∧
    (verifyTurnstile envDev "TEST_BYPASS" false = true) ∧
    (verifyTurnstile envProd "TEST_BYPASS" true =
      if envProd.turnstileSecret = "" then false else true) :=
  ⟨human_check_gates_mutation.1 reqNoDiscord envProd true randConst 0 dbDisc (by decide),
    human_check_gates_mutation.2.1 envDev false (by decide),
    human_check_gates_mutation.2.2 envProd true rfl⟩

/-- Claim C5: in every reachable store the (referrer, referee, kind) triple
is unique across the ledger and no event is a self edge; and for the
scenario of one crediting signup (fresh referee email, resolvable foreign
code, successful mint) followed by any further signup calls, the ledger
holds exactly one SIGNUP(R, F) event. -/
theorem referral_events_unique_and_exactly_once :
    (∀ db : Db, Reachable db → EvOk db) ∧
    (∀ (d : JoinData) (env : Env) (ext : Bool) (rand : Nat → String) (now : Nat) (db : Db)
      (R : UserAccount) (code : String),
      verifyTurnstile env d.token ext = true →
      db.accounts.find? (fun a => jsToLower a.email == normEmail d.email) = none →
      codeTaken db.accounts (makeReferralCode (normEmail d.email) (rand 0)) = false →
      refCodeIn d.referral d.referralAuto = some code →
      db.accounts.find? (fun a => a.referralCode == some code) = some R →
      R.id ≠ db.nextId →
      tripleIn R.id db.nextId .SIGNUP db.events = false →
      ∀ calls : List SignupCall,
        countTriple R.id db.nextId .SIGNUP
          (applySignups calls (waitlistHandler d env ext rand now db).1).events = 1) := by
  constructor
  · exact reachable_evOk
  · intro d env ext rand now db R code hh hfind hfresh0 href hR hRid htrip calls
    have happ := waitlistHandler_first_referral d env ext rand now db R code hh hfind
      hfresh0 href hR hRid htrip
    have h1 : countTriple R.id db.nextId .SIGNUP
        (waitlistHandler d env ext rand now db).1.events = 1 := by
      rw [happ, countTriple_append, countTriple_eq_zero htrip, countTriple_single_hit]
    have hin : tripleIn R.id db.nextId .SIGNUP
        (waitlistHandler d env ext rand now db).1.events = true := by
      rw [happ, tripleIn_append, tripleIn_single, Bool.or_true]
    obtain ⟨hc, _⟩ := applySignups_preserves_triple calls _ hin
    rw [hc, h1]

/-- Claim C5 (witness): the invariant holds at the empty store, and the
concrete crediting signup for f@x.io with the code of account 1, retried
once, leaves exactly one SIGNUP(1, 2) event. -/
theorem referral_events_unique_witness :
    EvOk Db.empty ∧
    countTriple 1 2 .SIGNUP
      (applySignups [⟨reqRef, envDev, false, randConst, 8⟩]
        (waitlistHandler reqRef envDev false randConst 7 dbR).1).events = 1 :=
  ⟨referral_events_unique_and_exactly_once.1 Db.empty Reachable.init,
    referral_events_unique_and_exactly_once.2 reqRef envDev false randConst 7 dbR acctR
      "RCODE1" (by decide) (by decide) (by decide) (by decide) (by decide) (by decide)
      (by decide) [⟨reqRef, envDev, false, randConst, 8⟩]⟩

/-- Claim C6: when the supplied referral code resolves to no account of the
post-upsert store, or resolves to the signup account itself, the signup
still answers ok and the ledger is unchanged; and in full generality a
SIGNUP event is appended only when the supplied code resolves to an account
whose id differs from the id of the account carrying the request email (the
guard u1.id <> u2.id of the insert-select). -/
theorem signup_unknown_or_self_code_no_event :
    (∀ (d : JoinData) (env : Env) (ext : Bool) (rand : Nat → String) (now : Nat)
      (db dbu : Db) (user : UserRow) (c : String),
      verifyTurnstile env d.token ext = true →
      upsertUser d rand now db (normEmail d.email) = some (dbu, user) →
      refCodeIn d.referral d.referralAuto = some c →
      (dbu.accounts.find? (fun a => a.referralCode == some c) = none ∨
        ∃ u1 u2, dbu.accounts.find? (fun a => a.referralCode == some c) = some u1 ∧
          dbu.accounts.find? (fun a => jsToLower a.email == normEmail d.email) = some u2 ∧
          u1.id = u2.id) →
      (waitlistHandler d env ext rand now db).1.events = db.events ∧
      ∃ r, (waitlistHandler d env ext rand now db).2 = .ok r) ∧
    (∀ (d : JoinData) (env : Env) (ext : Bool) (rand : Nat → String) (now : Nat) (db : Db),
      (waitlistHandler d env ext rand now db).1.events = db.events ∨
      ∃ c u1 u2, refCodeIn d.referral d.referralAuto = some c ∧
        (waitlistHandler d env ext rand now db).1.accounts.find?
          (fun a => a.referralCode == some c) = some u1 ∧
        (waitlistHandler d env ext rand now db).1.accounts.find?
          (fun a => jsToLower a.email == normEmail d.email) = some u2 ∧
        u1.id ≠ u2.id ∧
        (waitlistHandler d env ext rand now db).1.events =
          db.events ++ [⟨u1.id, u2.id, .SIGNUP, now⟩]) := by
  constructor
  · intro d env ext rand now db dbu user c hh hup hc hcase
    have hev : dbu.events = db.events := upsertUser_events hup
    unfold waitlistHandler
    split
    · dsimp only
      rw [hup]
      dsimp only
      constructor
      · rw [hc]
        unfold logReferral
        dsimp only
        rcases hcase with hnone | ⟨u1, u2, h1, h2, heq⟩
        · rw [hnone]
          exact hev
        · rw [h1, h2]
          dsimp only
          rw [if_neg]
          · exact hev
          · intro hcon
            rw [Bool.and_eq_true, bne_iff_ne] at hcon
            exact hcon.1 heq
      · exact ⟨_, rfl⟩
    · rename_i hfalse
      exact absurd hh hfalse
  · intro d env ext rand now db
    unfold waitlistHandler
    split
    · dsimp only
      cases hup : upsertUser d rand now db (normEmail d.email) with
      | none => exact Or.inl rfl
      | some p =>
        obtain ⟨db1, user⟩ := p
        dsimp only
        have hev : db1.events = db.events := upsertUser_events hup
        have hacc := logReferral_accounts (refCodeIn d.referral d.referralAuto)
          (normEmail d.email) now db1
        rcases logReferral_events (refCodeIn d.referral d.referralAuto) (normEmail d.email)
            now db1 with hsame | ⟨c, u1, u2, hcode, h1, h2, hne, _, happ⟩
        · exact Or.inl (by rw [hsame, hev])
        · refine Or.inr ⟨c, u1, u2, hcode, ?_, ?_, hne, ?_⟩
          · rw [hacc]
            exact h1
          · rw [hacc]
            exact h2
          · rw [happ, hev]
    · exact Or.inl rfl

/-- Claim C6 (witness): a signup on the empty store with the unknown code
DOESNOTEXIST answers ok and appends no event. -/
theorem signup_unknown_code_witness :
    (waitlistHandler reqUnknown envDev false randConst 3 Db.empty).1.events =
      Db.empty.events ∧
    ∃ r, (waitlistHandler reqUnknown envDev false randConst 3 Db.empty).2 = .ok r :=
  signup_unknown_or_self_code_no_event.1 reqUnknown envDev false randConst 3 Db.empty
    _ _ "DOESNOTEXIST" (by decide) rfl (by decide) (Or.inl (by decide))

/-- Inversion of an ok answer of the signup handler: it came through the
human check, an upsert that returned a user row, and the referral logging,
and the body is built from that row with a token whose subject is the row
id. -/
theorem waitlistHandler_ok_inv {d : JoinData} {env : Env} {ext : Bool} {rand : Nat → String}
    {now : Nat} {db : Db} {r : SignupOk}
    (h : (waitlistHandler d env ext rand now db).2 = .ok r) :
    ∃ db1 user, upsertUser d rand now db (normEmail d.email) = some (db1, user) ∧
      (waitlistHandler d env ext rand now db).1 =
        logReferral (refCodeIn d.referral d.referralAuto) (normEmail d.email) now db1 ∧
      r = ⟨user.referralCode, user.email, user.referralCode,
        ⟨user.id, user.email, "email-verify"⟩⟩ := by
  unfold waitlistHandler at h ⊢
  split at h
  · rename_i hcond
    rw [if_pos hcond]
    dsimp only at h ⊢
    cases hup : upsertUser d rand now db (normEmail d.email) with
    | none =>
      rw [hup] at h
      exact absurd h (by simp)
    | some p =>
      obtain ⟨db1, user⟩ := p
      rw [hup] at h
      dsimp only at h
      have hr : r = ⟨user.referralCode, user.email, user.referralCode,
          ⟨user.id, user.email, "email-verify"⟩⟩ := by
        injection h with h2
        exact h2.symm
      exact ⟨db1, user, rfl, rfl, hr⟩
  · dsimp only at h
    exact absurd h (by simp)

/-- Claim C10: every ok signup response carries a verification credential of
type email-verify whose subject is the id of the signed-up account: an
account present in the post-call store bearing the email echoed in the
response. -/
theorem signup_response_token_subject (d : JoinData) (env : Env) (ext : Bool)
    (rand : Nat → String) (now : Nat) (db : Db) (r : SignupOk)
    (h : (waitlistHandler d env ext rand now db).2 = .ok r) :
    r.verifyToken.typ = "email-verify" ∧ r.verifyToken.email = r.userEmail ∧
    r.code = r.userCode ∧
    ∃ a ∈ (waitlistHandler d env ext rand now db).1.accounts,
      a.id = r.verifyToken.sub ∧ a.email = r.verifyToken.email := by
  obtain ⟨db1, user, hup, hdb, hr⟩ := waitlistHandler_ok_inv h
  subst hr
  refine ⟨rfl, rfl, rfl, ?_⟩
  rw [hdb, logReferral_accounts]
  obtain ⟨a, ha, haid, haem⟩ := upsertUser_user_mem hup
  exact ⟨a, ha, haid, haem⟩

/-- Claim C10 (witness): the token-subject property at the concrete signup
of f@x.io on the store holding only the referrer. -/
theorem signup_response_token_subject_witness :
    (SignupOk.mk "FWXYZ" "f@x.io" "FWXYZ" ⟨2, "f@x.io", "email-verify"⟩).verifyToken.typ =
      "email-verify" ∧
    (SignupOk.mk "FWXYZ" "f@x.io" "FWXYZ" ⟨2, "f@x.io", "email-verify"⟩).verifyToken.email =
      (SignupOk.mk "FWXYZ" "f@x.io" "FWXYZ" ⟨2, "f@x.io", "email-verify"⟩).userEmail ∧
    (SignupOk.mk "FWXYZ" "f@x.io" "FWXYZ" ⟨2, "f@x.io", "email-verify"⟩).code =
      (SignupOk.mk "FWXYZ" "f@x.io" "FWXYZ" ⟨2, "f@x.io", "email-verify"⟩).userCode ∧
    ∃ a ∈ (waitlistHandler reqRef envDev false randConst 7 dbR).1.accounts,
      a.id = (SignupOk.mk "FWXYZ" "f@x.io" "FWXYZ" ⟨2, "f@x.io", "email-verify"⟩).verifyToken.sub ∧
      a.email =
        (SignupOk.mk "FWXYZ" "f@x.io" "FWXYZ" ⟨2, "f@x.io", "email-verify"⟩).verifyToken.email :=
  signup_response_token_subject reqRef envDev false randConst 7 dbR
    ⟨"FWXYZ", "f@x.io", "FWXYZ", ⟨2, "f@x.io", "email-verify"⟩⟩ (by decide)

/-- Claim C7: every returned leaderboard row belongs to an account with a
non-null referral code and carries the in-window SIGNUP count, the in-window
VERIFIED count, and points = signups x wSignup + verified x wVerified, with
points at or above the minimum; the rows are sorted by points descending,
then verified, then signups descending, then account creation ascending; at
most limit rows are returned, and when the limit does not cut, every
qualifying account contributes its row. -/
theorem leaderboard_rows_correct (db : Db) (ws : Nat) (wS wV : Int) (limit : Nat)
    (minPts : Int) :
    (∀ r ∈ leaderboardRows db ws wS wV limit minPts,
      ∃ a ∈ db.accounts, a.referralCode = some r.referralCode ∧
        r.signups = countRefEvents db.events a.id .SIGNUP ws ∧
        r.verified = countRefEvents db.events a.id .VERIFIED ws ∧
        r.points = (r.signups : Int) * wS + (r.verified : Int) * wV ∧
        minPts ≤ r.points ∧ r.createdAt = a.createdAt) ∧
    List.Sorted rowLe (leaderboardRows db ws wS wV limit minPts) ∧
    (leaderboardRows db ws wS wV limit minPts).length ≤ limit ∧
    ((lbFiltered db ws wS wV minPts).length ≤ limit →
      ∀ a ∈ db.accounts, a.referralCode.isSome = true →
        minPts ≤ (lbRowOf db.events ws wS wV a).points →
        lbRowOf db.events ws wS wV a ∈ leaderboardRows db ws wS wV limit minPts) := by
  refine ⟨?_, ?_, ?_, ?_⟩
  · intro r hr
    unfold leaderboardRows at hr
    have hr2 := List.mem_of_mem_take hr
    rw [List.mem_insertionSort] at hr2
    unfold lbFiltered at hr2
    rw [List.mem_filter] at hr2
    obtain ⟨hmem, hmin⟩ := hr2
    rw [List.mem_map] at hmem
    obtain ⟨a, hain, hra⟩ := hmem
    rw [List.mem_filter] at hain
    obtain ⟨haDb, hcode⟩ := hain
    obtain ⟨cc, hc⟩ := Option.isSome_iff_exists.mp hcode
    subst hra
    dsimp only [lbRowOf]
    refine ⟨a, haDb, ?_, lbCount_eq db.events a.id .SIGNUP ws,
      lbCount_eq db.events a.id .VERIFIED ws, rfl, of_decide_eq_true hmin, rfl⟩
    rw [hc]
    rfl
  · unfold leaderboardRows
    exact List.Pairwise.sublist (List.take_sublist _ _) (List.sorted_insertionSort rowLe _)
  · unfold leaderboardRows
    exact List.length_take_le _ _
  · intro hlim a ha hcode hmin
    unfold leaderboardRows
    rw [List.take_of_length_le]
    · rw [List.mem_insertionSort]
      unfold lbFiltered
      rw [List.mem_filter]
      exact ⟨List.mem_map_of_mem _ (List.mem_filter.mpr ⟨ha, hcode⟩), decide_eq_true hmin⟩
    · rw [(List.perm_insertionSort rowLe _).length_eq]
      exact hlim

/-- Claim C7 (witness): the row property, the ordering and the completeness
direction at the concrete store with one SIGNUP edge. -/
theorem leaderboard_rows_correct_witness :
    (∃ a ∈ dbSigned.accounts,
      a.referralCode = some (lbRowOf dbSigned.events 0 1 2 acctOne).referralCode ∧
      (lbRowOf dbSigned.events 0 1 2 acctOne).signups =
        countRefEvents dbSigned.events a.id .SIGNUP 0 ∧
      (lbRowOf dbSigned.events 0 1 2 acctOne).verified =
        countRefEvents dbSigned.events a.id .VERIFIED 0 ∧
      (lbRowOf dbSigned.events 0 1 2 acctOne).points =
        ((lbRowOf dbSigned.events 0 1 2 acctOne).signups : Int) * 1 +
          ((lbRowOf dbSigned.events 0 1 2 acctOne).verified : Int) * 2 ∧
      (0 : Int) ≤ (lbRowOf dbSigned.events 0 1 2 acctOne).points ∧
      (lbRowOf dbSigned.events 0 1 2 acctOne).createdAt = a.createdAt) ∧
    lbRowOf dbSigned.events 0 1 2 acctTwo ∈ leaderboardRows dbSigned 0 1 2 20 0 :=
  ⟨(leaderboard_rows_correct dbSigned 0 1 2 20 0).1 (lbRowOf dbSigned.events 0 1 2 acctOne)
      (by decide),
    (leaderboard_rows_correct dbSigned 0 1 2 20 0).2.2.2 (by decide) acctTwo (by decide)
      (by decide) (by decide)⟩

/-- Claim C8 (counterexample): for the account with email ab@x.io the
leaderboard masks with the first 3 characters of the whole address,
producing ab@***, while the first 3 characters of the local part followed by
the asterisks would be ab***. -/
theorem leaderboard_mask_uses_full_email :
    (leaderboardRows dbShortLocal 0 1 2 20 0).map LbRow.name = ["ab@***"] ∧
    acctShortLocal.email = "ab@x.io" ∧
    maskSpec "ab@x.io" = "ab***" ∧
    ("ab@***" : String) ≠ maskSpec "ab@x.io" := by
  refine ⟨by decide, by decide, by decide, by decide⟩

/-- Claim C8 (amended): every leaderboard row masks its account with the
first 3 characters of the full email address followed by three asterisks,
and for any account whose address contains no asterisk (every validated
email) the masked name never equals the full address. -/
theorem leaderboard_masks_email (db : Db) (ws : Nat) (wS wV : Int) (limit : Nat)
    (minPts : Int) :
    ∀ r ∈ leaderboardRows db ws wS wV limit minPts,
      ∃ a ∈ db.accounts,
        r.name = (⟨a.email.data.take 3⟩ : String) ++ "***" ∧
        (¬ ('*' ∈ a.email.data) → r.name ≠ a.email) := by
  intro r hr
  unfold leaderboardRows at hr
  have hr2 := List.mem_of_mem_take hr
  rw [List.mem_insertionSort] at hr2
  unfold lbFiltered at hr2
  rw [List.mem_filter] at hr2
  obtain ⟨hmem, _⟩ := hr2
  rw [List.mem_map] at hmem
  obtain ⟨a, hain, hra⟩ := hmem
  rw [List.mem_filter] at hain
  obtain ⟨haDb, _⟩ := hain
  subst hra
  dsimp only [lbRowOf]
  refine ⟨a, haDb, rfl, ?_⟩
  intro hstar heq
  apply hstar
  have hdata := congrArg String.data heq
  rw [String.data_append] at hdata
  rw [← hdata]
  apply List.mem_append.mpr
  right
  decide

/-- Claim C8 (witness): the amended mask property at the short local part
account. -/
theorem leaderboard_masks_email_witness :
    ∃ a ∈ dbShortLocal.accounts,
      (lbRowOf dbShortLocal.events 0 1 2 acctShortLocal).name =
        (⟨a.email.data.take 3⟩ : String) ++ "***" ∧
      (¬ ('*' ∈ a.email.data) →
        (lbRowOf dbShortLocal.events 0 1 2 acctShortLocal).name ≠ a.email) :=
  leaderboard_masks_email dbShortLocal 0 1 2 20 0
    (lbRowOf dbShortLocal.events 0 1 2 acctShortLocal) (by decide)

/-- Claim C9 (counterexample): when Math.random returns exactly 0 its base
36 string is the single character 0, slice(2, 6) of it is empty, and the
minted code is the bare seed with no 4-character suffix: no 4-character
string completes the prefix to the minted code. -/
theorem mint_code_suffix_can_be_short :
    makeReferralCode "bob@example.com" "0" = "BOB" ∧
    mintSeedSpec "bob@example.com" = "BOB" ∧
    ¬ ∃ s : String, s.length = 4 ∧
      makeReferralCode "bob@example.com" "0" = mintSeedSpec "bob@example.com" ++ s := by
  refine ⟨by decide, by decide, ?_⟩
  rintro ⟨s, hs4, heq⟩
  have h1 : (makeReferralCode "bob@example.com" "0").length = 3 := by decide
  rw [heq, String.length_append] at h1
  have h2 : (mintSeedSpec "bob@example.com").length = 3 := by decide
  rw [h2, hs4] at h1
  exact absurd h1 (by decide)

/-- Claim C9 (amended): a minted code is always the uppercased first 6
alphanumeric characters of the local part of the email followed by the
uppercased slice(2, 6) of the random base 36 string; that suffix has at most
4 characters, and whenever the random string has at least 6 characters and
its fractional digits are alphanumeric (as base 36 digits are) the suffix
has exactly 4 alphanumeric characters. -/
theorem makeReferralCode_structure (email rnd : String)
    (hlen : 6 ≤ rnd.length)
    (halnum : ∀ c ∈ rnd.data.drop 2, c.isAlphanum = true) :
    ∃ s : String, makeReferralCode email rnd = mintSeedSpec email ++ s ∧
      s.length = 4 ∧ ∀ c ∈ s.data, c.isAlphanum = true := by
  refine ⟨jsUpper (jsSlice rnd 2 6), makeReferralCode_seed email rnd, ?_, ?_⟩
  · show (((rnd.data.drop 2).take (6 - 2)).map Char.toUpper).length = 4
    rw [List.length_map, List.length_take, List.length_drop]
    have hlen2 : 6 ≤ rnd.data.length := hlen
    omega
  · intro c hc
    have hc2 : c ∈ ((rnd.data.drop 2).take (6 - 2)).map Char.toUpper := hc
    rw [List.mem_map] at hc2
    obtain ⟨c0, hc0, rfl⟩ := hc2
    exact isAlphanum_toUpper c0 (halnum c0 (List.mem_of_mem_take hc0))

/-- Claim C9 (witness): the amended structure at a concrete email and the
draw 0.k7q2. -/
theorem makeReferralCode_structure_witness :
    (6 ≤ ("0.k7q2" : String).length) ∧
    (∀ c ∈ ("0.k7q2" : String).data.drop 2, c.isAlphanum = true) ∧
    ∃ s : String, makeReferralCode "bob@example.com" "0.k7q2" =
        mintSeedSpec "bob@example.com" ++ s ∧
      s.length = 4 ∧ ∀ c ∈ s.data, c.isAlphanum = true :=
  ⟨by decide, by decide,
    makeReferralCode_structure "bob@example.com" "0.k7q2" (by decide) (by decide)⟩
